import Mathlib

/-!
# FontEco — verification of the glyph perforation pipeline

Shallow embedding of the FontEco repository's core pipeline
(`src/fonteco/dithering.py`, `src/fonteco/glyphs.py`, `src/fonteco/fonts.py`)
and proofs about the claims of its specification.

Modelling conventions:
* Grayscale bitmaps are `Image`: a width, a height and a total pixel
  function `ℤ → ℤ → ℕ` (0 = ink, 255 = background).  PIL pixel writes are
  modelled by functional update (`Image.setPix`).
* Python `int()` applied to a float truncates toward zero; exact real
  arithmetic is modelled with `ℚ` and truncation with `pyInt`.
* Python `//` on integers is floor division, modelled with `Int.fdiv`
  (`Nat` division where both operands are naturals).
* Randomness (`np.random.shuffle`, the scrambled Sobol sampler) is
  modelled by passing the random data as an explicit parameter, with the
  guarantees the library documents stated as hypotheses.
* Python exceptions are modelled with `Except String`.
-/

namespace FontEco

/-- Python `int()` on an exact rational: truncation toward zero
(`q.num / q.den` with the denominator positive, truncated division). -/
def pyInt (q : ℚ) : ℤ := q.num.tdiv q.den

/-- A grayscale raster image: fixed canvas size plus a total pixel
function (values outside the canvas are junk and never consulted by the
embedded code paths that the source guards with bounds checks). -/
structure Image where
  width : ℕ
  height : ℕ
  pix : ℤ → ℤ → ℕ

/-- Write one pixel (PIL `pixels[x, y] = v` on the image's buffer). -/
def Image.setPix (img : Image) (x y : ℤ) (v : ℕ) : Image :=
  { img with pix := fun a b => if a = x ∧ b = y then v else img.pix a b }

/-! ## `dithering.generate_sobol_sequence`

```
sampler = qmc.Sobol(d=2, scramble=True)
points = sampler.random_base2(m=int(np.log2(num_points)))
points = qmc.scale(points, [0, 0], [width, height])
return points.astype(int)
```

`qmc.Sobol(...).random_base2(m)` is a randomized scrambled sampler; it is
modelled by an explicit parameter `sample : ℕ → List (ℚ × ℚ)`; the
guarantees scipy documents — `random_base2 m` returns `2 ^ m` points of
the half-open unit square — are stated as hypotheses where needed.
`int(np.log2(n))` for `n ≥ 1` in the realistic range is `Nat.log2 n`;
`np.log2(0) = -inf` makes `int(...)` raise
`OverflowError: cannot convert float infinity to integer`, and a negative
argument gives `nan`, raising a ValueError. -/

def generate_sobol_sequence (width height : ℕ) (num_points : ℤ)
    (sample : ℕ → List (ℚ × ℚ)) : Except String (List (ℤ × ℤ)) :=
  if num_points = 0 then
    .error "OverflowError: cannot convert float infinity to integer"
  else if num_points < 0 then
    .error "ValueError: cannot convert float NaN to integer"
  else
    let m := Nat.log2 num_points.toNat
    .ok ((sample m).map (fun p => (pyInt (p.1 * width), pyInt (p.2 * height))))

/-! ## `dithering.apply_blue_noise_dithering`

```
pixels = image.load()
width, height = image.size
half_size = point_size // 2
for point_x, point_y in sobol_points:
    for dx in range(-half_size, half_size + 1):
        for dy in range(-half_size, half_size + 1):
            x = point_x + dx
            y = point_y + dy
            if 0 <= x < width and 0 <= y < height:
                pixels[x, y] = 255
return image
```

The writes target the input image's own buffer and the input object itself
is returned; the embedding returns the pair
(final state of the input image, returned image) — the two components are
the same image, reflecting the aliasing. -/

/-- `range(-half, half + 1)` as a list of integers (empty when `half < 0`). -/
def rangeOffsets (half : ℤ) : List ℤ :=
  (List.range (2 * half + 1).toNat).map (fun k => -half + k)

def apply_blue_noise_dithering (image : Image) (sobol_points : List (ℤ × ℤ))
    (point_size : ℕ) : Image × Image :=
  let half_size : ℤ := (point_size : ℤ) / 2
  let final := sobol_points.foldl (fun img p =>
    (rangeOffsets half_size).foldl (fun img dx =>
      (rangeOffsets half_size).foldl (fun img dy =>
        let x := p.1 + dx
        let y := p.2 + dy
        if 0 ≤ x ∧ x < (img.width : ℤ) ∧ 0 ≤ y ∧ y < (img.height : ℤ) then
          img.setPix x y 255
        else img) img) img) image
  (final, final)

/-! ## `dithering.simplify_image`

```
if not 2 <= num_levels <= 256:
    raise ValueError("num_levels must be between 2 and 256")
img_array = np.array(image)
step = 256 // (num_levels - 1)
levels = np.arange(0, 256, step)
if len(levels) > num_levels:
    levels = levels[:num_levels]
quantized = np.digitize(img_array, levels) - 1
simplified = levels[quantized]
return Image.fromarray(simplified.astype(np.uint8))
```

Pixels are modelled as a flat list (the mapping is pixelwise). -/

/-- `np.digitize(x, bins)` for increasing `bins` (default `right=False`):
the number of bin edges `≤ x`. -/
def pyDigitize (x : ℕ) (bins : List ℕ) : ℕ :=
  (bins.filter (fun b => decide (b ≤ x))).length

/-- The level table built by `simplify_image`:
`np.arange(0, 256, step)` truncated to `num_levels` entries when longer. -/
def simplifyStep (num_levels : ℕ) : ℕ := 256 / (num_levels - 1)

def simplifyBase (num_levels : ℕ) : List ℕ :=
  (List.range ((256 + simplifyStep num_levels - 1) / simplifyStep num_levels)).map
    (· * simplifyStep num_levels)

def simplifyLevels (num_levels : ℕ) : List ℕ :=
  if num_levels < (simplifyBase num_levels).length then
    (simplifyBase num_levels).take num_levels
  else simplifyBase num_levels

def simplify_image (pixels : List ℕ) (num_levels : ℕ) :
    Except String (List ℕ) :=
  if 2 ≤ num_levels ∧ num_levels ≤ 256 then
    let levels := simplifyLevels num_levels
    .ok (pixels.map (fun p => (levels.getD (pyDigitize p levels - 1) 0) % 256))
  else
    .error "num_levels must be between 2 and 256"

/-! ## `dithering.apply_shape_dithering`

The shape operator paints white shapes on a copy of the input image.
`np.random.shuffle(black_pixels)` is modelled by passing the shuffled
candidate list as the explicit parameter `shuffled` (a permutation of
`blackPixels image`); `reduction_percentage` is assumed nonnegative (for a
negative value the Python slice `black_pixels[:num_shapes]` would drop a
suffix instead — outside the documented 0–100 domain).
The `shape_type`/`shape_size` argument validation of lines 182–188 is
made unrepresentable by the `ShapeType`/`ShapeSizeSpec` types. -/

inductive ShapeType where
  | circle
  | rectangle
deriving DecidableEq

/-- `shape_size`: an exact int, `"random"`, or `"biggest"`.  The Python
variable holding it is rebound by the overlap-scan loop (`for center_x,
center_y, shape_size in placed_shapes`), so the loop state carries it. -/
inductive ShapeSizeSpec where
  | fixed (n : ℤ)
  | random
  | biggest
deriving DecidableEq

/-- `np.where(img_array == 0)` zipped to `(x, y)` pairs: row-major scan. -/
def blackPixels (img : Image) : List (ℤ × ℤ) :=
  (List.range img.height).flatMap (fun y =>
    (List.range img.width).filterMap (fun x =>
      if img.pix x y = 0 then some ((x : ℤ), (y : ℤ)) else none))

/-- `int(len(black_pixels) * (reduction_percentage / 100))`. -/
def numShapes (img : Image) (reduction_percentage : ℚ) : ℕ :=
  (pyInt (((blackPixels img).length : ℚ) * (reduction_percentage / 100))).toNat

/-- `distance < min_distance` where `distance` is the Euclidean distance
whose square is `dsq`: since the distance is nonnegative and squaring is
monotone on nonnegatives, this is `dsq < min_distance ^ 2` when
`min_distance > 0` and `False` otherwise. -/
def distLt (dsq : ℤ) (minDist : ℤ) : Bool :=
  if minDist ≤ 0 then false else decide (dsq < minDist ^ 2)

/-- The message of `Warning("This function is under development")` raised
unconditionally by `_get_random_shape_size` and
`_get_biggest_possible_shape`. -/
def devWarning : String := "This function is under development"

/-- The overlap scan
```
for center_x, center_y, shape_size in placed_shapes:
    distance = ((x - center_x) ** 2 + (y - center_y) ** 2) ** 0.5
    min_distance = margin + half_size + shape_size // 2
    if distance < min_distance:
        overlaps = True
        break
```
returning whether an overlap was found together with the last value bound
to the (shadowed) `shape_size` variable. -/
def overlapScan (margin halfSize x y : ℤ) :
    List (ℤ × ℤ × ℤ) → Bool × Option ℤ
  | [] => (false, none)
  | (cx, cy, ps) :: rest =>
    let minDist := margin + halfSize + ps.fdiv 2
    let dsq := (x - cx) ^ 2 + (y - cy) ^ 2
    if distLt dsq minDist then (true, some ps)
    else
      match overlapScan margin halfSize x y rest with
      | (b, none) => (b, some ps)
      | (b, some q) => (b, some q)

/-- Offsets `(dx, dy)` covered by a shape of half size `half`: the square
`[-half, half]²`, restricted to `dx² + dy² ≤ half²` for circles.  Both the
white-pixel overlap check and the painting loop range over these. -/
def coveredOffsets (st : ShapeType) (half : ℤ) : List (ℤ × ℤ) :=
  (rangeOffsets half).flatMap (fun dx =>
    (rangeOffsets half).filterMap (fun dy =>
      match st with
      | .circle => if dx ^ 2 + dy ^ 2 ≤ half ^ 2 then some (dx, dy) else none
      | .rectangle => some (dx, dy)))

/-- The value of the (shadowed) `shape_size` variable after the overlap
scan: unchanged when the scan examined nothing, else the last examined
placed shape's size. -/
def scanSizeUpdate (prev : ShapeSizeSpec) (o : Option ℤ) : ShapeSizeSpec :=
  match o with
  | none => prev
  | some q => .fixed q

/-- Loop state of `apply_shape_dithering`: the result image being painted
(a copy of the input), the placed shapes, and the current binding of the
Python `shape_size` variable. -/
structure ShapeState where
  res : Image
  placed : List (ℤ × ℤ × ℤ)
  curSize : ShapeSizeSpec

/-- One iteration of the candidate loop of `apply_shape_dithering`
(lines 211–283): skip already-white centers, determine the size (the
helper functions for `"random"`/`"biggest"` raise immediately), check
bounds, check overlap with placed shapes, check overlap with white
pixels, then paint and record. -/
def shapeStep (shape_type : ShapeType) (margin : ℤ) (w h : ℕ)
    (st : ShapeState) (c : ℤ × ℤ) : Except String ShapeState :=
  let x := c.1
  let y := c.2
  if st.res.pix x y = 255 then .ok st
  else
    match st.curSize with
    | .random => .error devWarning
    | .biggest => .error devWarning
    | .fixed size =>
      let half_size := size.fdiv 2
      if ¬ (margin ≤ x - half_size ∧ x + half_size < (w : ℤ) - margin ∧
            margin ≤ y - half_size ∧ y + half_size < (h : ℤ) - margin) then
        .ok st
      else
        let scan := overlapScan margin half_size x y st.placed
        let st1 : ShapeState := { st with curSize := scanSizeUpdate st.curSize scan.2 }
        if scan.1 then .ok st1
        else if (coveredOffsets shape_type half_size).any
            (fun d => decide (st1.res.pix (x + d.1) (y + d.2) = 255)) then
          .ok st1
        else
          let painted := (coveredOffsets shape_type half_size).foldl
            (fun im d => im.setPix (x + d.1) (y + d.2) 255) st1.res
          .ok { st1 with res := painted, placed := st1.placed ++ [(x, y, size)] }

/-- The candidate loop `for x, y in black_pixels[:num_shapes]`, with an
uncaught exception aborting the whole loop. -/
def shapeLoop (shape_type : ShapeType) (margin : ℤ) (w h : ℕ) :
    List (ℤ × ℤ) → ShapeState → Except String ShapeState
  | [], s => .ok s
  | c :: rest, s =>
    match shapeStep shape_type margin w h s c with
    | .ok s1 => shapeLoop shape_type margin w h rest s1
    | .error e => .error e

/-- `apply_shape_dithering(image, shape_type, margin, shape_size,
reduction_percentage)`.  Returns the pair
(final state of the input image, outcome); all painting targets the copy
`result = image.copy()`, so the first component is the unchanged input.
The outcome carries the returned image together with `placed_shapes`. -/
def apply_shape_dithering (image : Image) (shape_type : ShapeType)
    (margin : ℤ) (shape_size : ShapeSizeSpec) (reduction_percentage : ℚ)
    (shuffled : List (ℤ × ℤ)) :
    Image × Except String (Image × List (ℤ × ℤ × ℤ)) :=
  let num_shapes := numShapes image reduction_percentage
  let init : ShapeState := ⟨image, [], shape_size⟩
  let out := shapeLoop shape_type margin image.width image.height
    (shuffled.take num_shapes) init
  (image, out.map (fun st => (st.res, st.placed)))

/-- The spec's minimum-separation relation between two placed shapes
`(x, y, size)`: the squared Euclidean distance between the centers is at
least the square of `margin + size₁ // 2 + size₂ // 2` (equivalent to the
distance bound itself whenever that quantity is nonnegative, since both
sides of the original inequality are then nonnegative). -/
def shapeSep (margin : ℤ) (p q : ℤ × ℤ × ℤ) : Prop :=
  (margin + p.2.2.fdiv 2 + q.2.2.fdiv 2) ^ 2
    ≤ (p.1 - q.1) ^ 2 + (p.2.1 - q.2.1) ^ 2

/-- Loop invariant for the shape-placement loop under a fixed integer
size `n`: the `shape_size` variable still holds an integer equal to `n`,
every placed shape has size `n`, and all placed shapes are pairwise
separated. -/
def SepInv (margin n : ℤ) (s : ShapeState) : Prop :=
  s.curSize = ShapeSizeSpec.fixed n
  ∧ (∀ p ∈ s.placed, p.2.2 = n)
  ∧ List.Pairwise (shapeSep margin) s.placed

/-! ## `fonts.perforate_font` — per-glyph pieces

The orchestrator pieces that the claims are about, embedded one by one.  -/

/-- `num_points = int(image_size[0] * image_size[1] * (reduction_percentage / 100))`
(`fonts.py` lines 256–257). -/
def numPointsPerforate (imageW imageH : ℕ) (reduction_percentage : ℚ) : ℤ :=
  pyInt (((imageW * imageH : ℕ) : ℚ) * (reduction_percentage / 100))

/-- The dithering dispatch of `perforate_font` (lines 262–271):
```
if dithering_mode == "shape":
    perforated_image = apply_shape_dithering(image, ...)
else:
    perforated_image = apply_blue_noise_dithering(image, sobol_points, point_size)
```
There is no validation of `dithering_mode` anywhere in `perforate_font`:
every value other than `"shape"` takes the blue-noise branch.  Returns
(final state of the input image, outcome image). -/
def perforateDitherStep (dithering_mode : String) (image : Image)
    (sobol_points : List (ℤ × ℤ)) (point_size : ℕ) (shape_type : ShapeType)
    (margin : ℤ) (shape_size : ShapeSizeSpec) (reduction_percentage : ℚ)
    (shuffled : List (ℤ × ℤ)) : Image × Except String Image :=
  if dithering_mode = "shape" then
    let r := apply_shape_dithering image shape_type margin shape_size
      reduction_percentage shuffled
    (r.1, r.2.map Prod.fst)
  else
    let r := apply_blue_noise_dithering image sobol_points point_size
    (r.1, .ok r.2)

/-- The progress value `int((i / total_glyphs) * 100)` passed to
`progress_callback` (lines 126–128). -/
def progressValue (i total : ℕ) : ℤ :=
  pyInt (((i : ℚ) / (total : ℚ)) * 100)

/-- The sequence of arguments `perforate_font` passes to
`progress_callback`, in order: the callback is invoked once at the top of
each iteration of `for i, glyph_name in enumerate(progress_bar)` (before
the glyph is processed, including for glyphs that are skipped), and never
after the loop. -/
def perforateProgressTrace (glyphs : List String) : List ℤ :=
  let total := glyphs.length
  (List.range total).foldl (fun acc i => acc ++ [progressValue i total]) []

/-- Functional update of the glyph table: `font["glyf"][name] = v`. -/
def updateGlyf {G : Type} (glyf : String → Option G) (name : String)
    (v : G) : String → Option G :=
  fun n => if n = name then some v else glyf n

/-- The blanking post-pass of `perforate_font` (lines 297–300):
```
for glyph_name in list(font.getGlyphOrder()):
    if glyph_name not in modified_glyphs:
        font["glyf"][glyph_name] = font["glyf"]["space"]
```
The table read `font["glyf"]["space"]` raises a KeyError when the font
has no glyph named `"space"`. -/
def blankSubstitutePass {G : Type} (glyf : String → Option G)
    (order : List String) (modified : List String) :
    Except String (String → Option G) :=
  match order with
  | [] => .ok glyf
  | name :: rest =>
    if name ∈ modified then blankSubstitutePass glyf rest modified
    else
      match glyf "space" with
      | some sp => blankSubstitutePass (updateGlyf glyf name sp) rest modified
      | none => .error "KeyError: space"

/-! ## `glyphs.image_to_glyph` — coordinate scaling

```
if scale_factor == "AUTO":
    image_height = img.shape[0]
    final_scale_factor = units_per_em / image_height
else:
    final_scale_factor = float(scale_factor)

for i in range(len(glyph.coordinates)):
    if not with_bug:
        glyph.coordinates[i] = (
            int(glyph.coordinates[i][0] * final_scale_factor),
            int(glyph.coordinates[i][1] * -final_scale_factor + ascender)
        )
    else:
        glyph.coordinates[i] = (
            int(glyph.coordinates[-i][1] * final_scale_factor),
            int(glyph.coordinates[-i][0] * final_scale_factor)
        )
```
The loop mutates the coordinate array in place; the embedding threads the
list through an indexed fold (`coordinates[-i]` is index `(n - i) % n`).
Coordinates stay `ℚ × ℚ` (holding integer values after the write) because
bug mode may re-read slots already written. -/

inductive ScaleFactor where
  | auto
  | numeric (v : ℚ)
deriving DecidableEq

def finalScaleFactor (sf : ScaleFactor) (units_per_em image_height : ℕ) : ℚ :=
  match sf with
  | .auto => (units_per_em : ℚ) / (image_height : ℚ)
  | .numeric v => v

/-- One iteration of the scaling loop, writing slot `i`. -/
def scaleStep (s asc : ℚ) (with_bug : Bool) (n : ℕ)
    (st : List (ℚ × ℚ)) (i : ℕ) : List (ℚ × ℚ) :=
  if ¬ with_bug then
    let p := st.getD i (0, 0)
    st.set i ((pyInt (p.1 * s) : ℚ), (pyInt (p.2 * -s + asc) : ℚ))
  else
    let p := st.getD ((n - i) % n) (0, 0)
    st.set i ((pyInt (p.2 * s) : ℚ), (pyInt (p.1 * s) : ℚ))

def scaleGlyphCoords (coords : List (ℚ × ℚ)) (s asc : ℚ)
    (with_bug : Bool) : List (ℚ × ℚ) :=
  (List.range coords.length).foldl
    (fun st i => scaleStep s asc with_bug coords.length st i) coords

/-- The coordinate-scaling step of `image_to_glyph`: resolve
`final_scale_factor`, then run the in-place loop. -/
def imageToGlyphScale (coords : List (ℚ × ℚ)) (sf : ScaleFactor)
    (units_per_em image_height : ℕ) (ascender : ℤ) (with_bug : Bool) :
    List (ℚ × ℚ) :=
  scaleGlyphCoords coords (finalScaleFactor sf units_per_em image_height)
    (ascender : ℚ) with_bug

/-! ## Concrete sample inputs used by closed theorems -/

/-- A 1×1 canvas whose single pixel is ink (black). -/
def demoBlack : Image := ⟨1, 1, fun _ _ => 0⟩

/-- A 2×2 canvas, all four pixels ink. -/
def demoBlack4 : Image := ⟨2, 2, fun _ _ => 0⟩

/-- A 5×5 canvas, all pixels ink. -/
def demoBlack25 : Image := ⟨5, 5, fun _ _ => 0⟩

/-- A toy glyph table with a `"space"` glyph and one letter. -/
def demoGlyf : String → Option ℕ :=
  fun n => if n = "space" then some 7 else if n = "A" then some 1 else none

/-- A toy glyph table without a `"space"` glyph. -/
def demoGlyfNoSpace : String → Option ℕ :=
  fun n => if n = "A" then some 1 else none

/-! # Theorems -/

/-! ## Helper lemmas -/

theorem pyInt_of_num_den (q : ℚ) (a : ℤ) (b : ℕ) (h1 : q.num = a)
    (h2 : q.den = b) : pyInt q = a.tdiv b := by
  rw [pyInt, h1, h2]

theorem pyInt_eq_floor (q : ℚ) (h : 0 ≤ q) : pyInt q = ⌊q⌋ := by
  rw [pyInt, Int.tdiv_eq_ediv (Rat.num_nonneg.mpr h) (Int.ofNat_nonneg q.den)]
  exact Rat.floor_def.symm

/-- The exact-rational progress value equals floor division on naturals
(also at `total = 0`, where Python would not reach the expression). -/
theorem progressValue_eq (i total : ℕ) :
    progressValue i total = ((i * 100 / total : ℕ) : ℤ) := by
  rcases Nat.eq_zero_or_pos total with h | h
  · subst h
    rw [progressValue, Nat.cast_zero, div_zero, zero_mul, Nat.div_zero,
      Nat.cast_zero]
    rw [pyInt_of_num_den 0 0 1 (by norm_num) (by norm_num)]
    rfl
  · have harg : ((i : ℚ) / (total : ℚ)) * 100 = ((i * 100 : ℕ) : ℚ) / ((total : ℕ) : ℚ) := by
      push_cast
      ring
    rw [progressValue, harg,
      pyInt_eq_floor _ (by positivity),
      Rat.floor_natCast_div_natCast]
    rfl

theorem foldl_push_eq_map {α β : Type} (f : α → β) (l : List α) :
    ∀ acc : List β, l.foldl (fun a x => a ++ [f x]) acc = acc ++ l.map f := by
  induction l with
  | nil => simp
  | cons x xs ih => intro acc; simp [ih]

/-- The trace of callback arguments, in closed form. -/
theorem perforateProgressTrace_eq_map (glyphs : List String) :
    perforateProgressTrace glyphs
      = (List.range glyphs.length).map
          (fun i => ((i * 100 / glyphs.length : ℕ) : ℤ)) := by
  rw [perforateProgressTrace, foldl_push_eq_map, List.nil_append]
  exact List.map_congr_left (fun i _ => progressValue_eq i glyphs.length)

/-- C1 (counterexample): calling the dithering dispatch of
`perforate_font` with the unknown `dithering_mode = "foo"` does not raise
a configuration error: the call succeeds (`isOk`), and the glyph bitmap is
processed by blue-noise dithering (its ink pixel is whitened), so glyph
processing does happen and the run proceeds to save the output font. -/
theorem C1_counterexample :
    ((perforateDitherStep "foo" demoBlack [(0, 0)] 1 ShapeType.circle 1
        (ShapeSizeSpec.fixed 10) 20 []).2).isOk = true
    ∧ ((apply_blue_noise_dithering demoBlack [(0, 0)] 1).2).pix 0 0 = 255 :=
  ⟨rfl, rfl⟩

/-- C1 (amended): `perforate_font` never validates `dithering_mode`; any
value other than `"shape"` — including unknown values such as `"foo"` —
silently selects blue-noise dithering, the glyphs are processed and the
output font is written. -/
theorem C1_unknown_mode_falls_back (mode : String) (h : mode ≠ "shape")
    (image : Image) (pts : List (ℤ × ℤ)) (psz : ℕ) (st : ShapeType)
    (mg : ℤ) (ss : ShapeSizeSpec) (pct : ℚ) (sh : List (ℤ × ℤ)) :
    perforateDitherStep mode image pts psz st mg ss pct sh
      = ((apply_blue_noise_dithering image pts psz).1,
         Except.ok (apply_blue_noise_dithering image pts psz).2) := by
  unfold perforateDitherStep
  rw [if_neg h]

/-- Witness for `C1_unknown_mode_falls_back` at `dithering_mode = "foo"`. -/
theorem C1_unknown_mode_falls_back_witness :
    perforateDitherStep "foo" demoBlack [] 1 ShapeType.circle 1
        (ShapeSizeSpec.fixed 10) 20 []
      = ((apply_blue_noise_dithering demoBlack [] 1).1,
         Except.ok (apply_blue_noise_dithering demoBlack [] 1).2) :=
  C1_unknown_mode_falls_back "foo" (by decide) demoBlack [] 1
    ShapeType.circle 1 (ShapeSizeSpec.fixed 10) 20 []

/-- C3: with `reduction_percentage = 0` the orchestrator computes
`num_points = int(512 * 512 * 0) = 0`, and
`generate_sobol_sequence(512, 512, 0)` evaluates `int(np.log2(0))` =
`int(-inf)`, raising OverflowError.  The exception is raised outside the
per-glyph `try` block, so the whole run aborts at the first processed
glyph and no output font is saved — contradicting the spec's round-trip
sanity property and the docstring's documented 0–100 domain. -/
theorem C3_reduction_zero_overflow :
    numPointsPerforate 512 512 0 = 0
    ∧ generate_sobol_sequence 512 512 (numPointsPerforate 512 512 0)
        (fun _ => [])
      = Except.error "OverflowError: cannot convert float infinity to integer" := by
  have h0 : numPointsPerforate 512 512 0 = 0 := by
    have harg : ((512 * 512 : ℕ) : ℚ) * ((0 : ℚ) / 100) = 0 := by norm_num
    rw [numPointsPerforate, harg,
      pyInt_of_num_den 0 0 1 (by norm_num) (by norm_num)]
    rfl
  exact ⟨h0, by rw [h0]; rfl⟩

/-- C5 (counterexample): for a font with four glyphs the callback
argument sequence is `[0, 25, 50, 75]` — the values are emitted at the
top of each iteration starting at `i = 0`, and `100` is never emitted, so
there is no final invocation with 100 before the font is saved. -/
theorem C5_counterexample :
    perforateProgressTrace ["a", "b", "c", "d"] = [0, 25, 50, 75]
    ∧ (100 : ℤ) ∉ perforateProgressTrace ["a", "b", "c", "d"] := by
  have h := perforateProgressTrace_eq_map ["a", "b", "c", "d"]
  rw [show (["a", "b", "c", "d"] : List String).length = 4 from rfl] at h
  rw [h]
  refine ⟨by decide, by decide⟩

/-- C10: `apply_shape_dithering` paints only on the copy
`result = image.copy()`, so the input image is unchanged after the call;
`apply_blue_noise_dithering` (point removal) writes through the input
image's own buffer and returns that same object — and it really mutates:
on a 1×1 ink canvas with one removal point the input's pixel becomes 255
though it was 0 before the call. -/
theorem C10_shape_pure_point_removal_in_place :
    (∀ (image : Image) (st : ShapeType) (mg : ℤ) (ss : ShapeSizeSpec)
        (pct : ℚ) (sh : List (ℤ × ℤ)),
        (apply_shape_dithering image st mg ss pct sh).1 = image)
    ∧ (∀ (image : Image) (pts : List (ℤ × ℤ)) (psz : ℕ),
        (apply_blue_noise_dithering image pts psz).2
          = (apply_blue_noise_dithering image pts psz).1)
    ∧ (apply_blue_noise_dithering demoBlack [(0, 0)] 1).1.pix 0 0 = 255
    ∧ demoBlack.pix 0 0 = 0 :=
  ⟨fun _ _ _ _ _ _ => rfl, fun _ _ _ => rfl, rfl, rfl⟩

/-- C5 (amended): the callback is invoked at the top of each glyph
iteration — before the glyph is processed, not after — with
`floor(100 · i / total)` for `i = 0 … total − 1`, and the pipeline never
emits `100`: every emitted value is `< 100` (the GUI layer emits its own
final 100 after `perforate_font` returns). -/
theorem C5_progress_before_each_glyph (glyphs : List String)
    (h : glyphs ≠ []) :
    perforateProgressTrace glyphs
      = (List.range glyphs.length).map
          (fun i => ((i * 100 / glyphs.length : ℕ) : ℤ))
    ∧ ∀ v ∈ perforateProgressTrace glyphs, v < 100 := by
  refine ⟨perforateProgressTrace_eq_map glyphs, ?_⟩
  intro v hv
  rw [perforateProgressTrace_eq_map] at hv
  simp only [List.mem_map, List.mem_range] at hv
  obtain ⟨i, hi, rfl⟩ := hv
  have htot : 0 < glyphs.length := List.length_pos.mpr h
  have hlt : i * 100 / glyphs.length < 100 := by
    rw [Nat.div_lt_iff_lt_mul htot]
    calc i * 100 < glyphs.length * 100 :=
          (Nat.mul_lt_mul_right (by norm_num)).mpr hi
      _ = 100 * glyphs.length := Nat.mul_comm _ _
  exact_mod_cast hlt

/-- Witness for `C5_progress_before_each_glyph` on a two-glyph font. -/
theorem C5_progress_before_each_glyph_witness :
    (perforateProgressTrace ["a", "b"]
      = (List.range (["a", "b"] : List String).length).map
          (fun i => ((i * 100 / (["a", "b"] : List String).length : ℕ) : ℤ)))
    ∧ ∀ v ∈ perforateProgressTrace ["a", "b"], v < 100 :=
  C5_progress_before_each_glyph ["a", "b"] (List.cons_ne_nil _ _)

/-- The in-place write loop, when each slot is written from itself only,
is a pointwise map: processing the first `k` indices maps the prefix. -/
theorem scale_foldl_set_eq_map (f : ℚ × ℚ → ℚ × ℚ) :
    ∀ (k : ℕ) (st : List (ℚ × ℚ)), k ≤ st.length →
      (List.range k).foldl (fun l i => l.set i (f (l.getD i (0, 0)))) st
        = (st.take k).map f ++ st.drop k := by
  intro k
  induction k with
  | zero => intro st _; simp
  | succ k ih =>
    intro st hk
    have hk' : k < st.length := hk
    rw [List.range_succ, List.foldl_append, ih st (Nat.le_of_succ_le hk)]
    simp only [List.foldl_cons, List.foldl_nil]
    have hlenA : ((st.take k).map f).length = k := by
      simp [Nat.min_eq_left (Nat.le_of_lt hk')]
    rw [List.getD_append_right _ _ _ _ (le_of_eq hlenA), hlenA, Nat.sub_self]
    rw [List.set_append_right _ _ (le_of_eq hlenA), hlenA, Nat.sub_self]
    rw [List.drop_eq_getElem_cons hk', List.set_cons_zero]
    rw [List.getD_cons_zero]
    rw [List.take_succ, List.getElem?_eq_getElem hk', List.map_append]
    simp

/-- In normal (non-bug) mode each slot is read and written at the same
index, so the in-place loop equals a pointwise map. -/
theorem scaleGlyphCoords_not_bug (coords : List (ℚ × ℚ)) (s asc : ℚ) :
    scaleGlyphCoords coords s asc false
      = coords.map (fun p =>
          ((pyInt (p.1 * s) : ℚ), (pyInt (p.2 * -s + asc) : ℚ))) := by
  have key := scale_foldl_set_eq_map
    (fun p => ((pyInt (p.1 * s) : ℚ), (pyInt (p.2 * -s + asc) : ℚ)))
    coords.length coords le_rfl
  rw [List.take_length, List.drop_length, List.append_nil] at key
  rw [scaleGlyphCoords, ← key]
  rfl

/-- C2 (counterexample): the transform truncates toward zero rather than
rounding: at the point `(1, 0)` with numeric `scale_factor = 1.9` and
`ascender = 0` the code produces `x' = int(1.9) = 1`, while the claimed
`round(1·1.9)` is `2`. -/
theorem C2_counterexample :
    imageToGlyphScale [((1 : ℚ), (0 : ℚ))] (ScaleFactor.numeric (19 / 10))
        1000 512 0 false = [((1 : ℚ), (0 : ℚ))]
    ∧ round ((1 : ℚ) * (19 / 10)) = 2 := by
  constructor
  · rw [imageToGlyphScale, scaleGlyphCoords_not_bug]
    have h1 : pyInt ((1 : ℚ) * finalScaleFactor (ScaleFactor.numeric (19 / 10)) 1000 512) = 1 := by
      rw [show ((1 : ℚ) * finalScaleFactor (ScaleFactor.numeric (19 / 10)) 1000 512) = 19 / 10 by
        rw [finalScaleFactor]; ring]
      rw [pyInt_of_num_den _ 19 10 (by norm_num) (by norm_num)]
      decide
    have h2 : pyInt ((0 : ℚ) * -(finalScaleFactor (ScaleFactor.numeric (19 / 10)) 1000 512) + ((0 : ℤ) : ℚ)) = 0 := by
      rw [show ((0 : ℚ) * -(finalScaleFactor (ScaleFactor.numeric (19 / 10)) 1000 512) + ((0 : ℤ) : ℚ)) = 0 by push_cast; ring]
      rw [pyInt_of_num_den 0 0 1 (by norm_num) (by norm_num)]
      decide
    simp only [List.map_cons, List.map_nil, h1, h2]
    norm_num
  · rw [show ((1 : ℚ) * (19 / 10)) = 19 / 10 by ring]
    norm_num [round_eq]

/-- C2 (amended): in normal mode the coordinate transform writes
`x' = trunc(x·s)` and `y' = trunc(−y·s + ascender)` — truncation toward
zero (Python `int()`), not rounding — where `s` is `scale_factor` when
numeric and `units_per_em / canvas_pixel_height` when `"AUTO"`. -/
theorem C2_transform_truncates (coords : List (ℚ × ℚ)) (sf : ScaleFactor)
    (upem imgH : ℕ) (asc : ℤ) :
    imageToGlyphScale coords sf upem imgH asc false
      = coords.map (fun p =>
          ((pyInt (p.1 * finalScaleFactor sf upem imgH) : ℚ),
           (pyInt (p.2 * -(finalScaleFactor sf upem imgH) + (asc : ℚ)) : ℚ)))
    ∧ finalScaleFactor ScaleFactor.auto upem imgH
        = (upem : ℚ) / (imgH : ℚ) := by
  constructor
  · rw [imageToGlyphScale, scaleGlyphCoords_not_bug]
  · rfl

/-- When the table holds a `"space"` glyph, the blanking pass succeeds and
sets every unmodified name of the order to that glyph (and preserves any
entry already equal to it). -/
theorem blankPass_ok {G : Type} (sp : G) (modified : List String) :
    ∀ (order : List String) (g : String → Option G), g "space" = some sp →
      ∃ g', blankSubstitutePass g order modified = Except.ok g'
        ∧ ∀ n, ((n ∈ order ∧ n ∉ modified) ∨ g n = some sp) →
            g' n = some sp := by
  intro order
  induction order with
  | nil =>
    intro g hg
    refine ⟨g, rfl, ?_⟩
    intro n hn
    rcases hn with ⟨hmem, _⟩ | h
    · cases hmem
    · exact h
  | cons a rest ih =>
    intro g hg
    by_cases ha : a ∈ modified
    · obtain ⟨g', h1, h3⟩ := ih g hg
      refine ⟨g', ?_, ?_⟩
      · rw [blankSubstitutePass, if_pos ha]
        exact h1
      · intro n hn
        rcases hn with ⟨hmem, hnm⟩ | h
        · rcases List.mem_cons.mp hmem with rfl | hrest
          · exact absurd ha hnm
          · exact h3 n (Or.inl ⟨hrest, hnm⟩)
        · exact h3 n (Or.inr h)
    · have hg1 : updateGlyf g a sp "space" = some sp := by
        rw [updateGlyf]
        by_cases hsp : "space" = a
        · rw [if_pos hsp]
        · rw [if_neg hsp]; exact hg
      obtain ⟨g', h1, h3⟩ := ih (updateGlyf g a sp) hg1
      refine ⟨g', ?_, ?_⟩
      · rw [blankSubstitutePass, if_neg ha, hg]
        exact h1
      · intro n hn
        rcases hn with ⟨hmem, hnm⟩ | h
        · rcases List.mem_cons.mp hmem with rfl | hrest
          · refine h3 n (Or.inr ?_)
            rw [updateGlyf, if_pos rfl]
          · exact h3 n (Or.inl ⟨hrest, hnm⟩)
        · refine h3 n (Or.inr ?_)
          rw [updateGlyf]
          by_cases hna : n = a
          · rw [if_pos hna]
          · rw [if_neg hna]; exact h

/-- Without a `"space"` glyph, the pass raises `KeyError` as soon as it
meets an unmodified name: nothing ever writes to the table before that. -/
theorem blankPass_error {G : Type} (modified : List String) :
    ∀ (order : List String) (g : String → Option G), g "space" = none →
      ∀ name ∈ order, name ∉ modified →
        blankSubstitutePass g order modified
          = Except.error "KeyError: space" := by
  intro order
  induction order with
  | nil =>
    intro g _ name hmem
    cases hmem
  | cons a rest ih =>
    intro g hg name hmem hnm
    by_cases ha : a ∈ modified
    · rw [blankSubstitutePass, if_pos ha]
      have hne : name ≠ a := fun h => hnm (h ▸ ha)
      rcases List.mem_cons.mp hmem with rfl | hrest
      · exact absurd rfl hne
      · exact ih g hg name hrest hnm
    · rw [blankSubstitutePass, if_neg ha, hg]

/-- C4 (counterexample): on a font whose glyph table has no `"space"`
entry and whose single glyph `"A"` was never modified, the post-pass
raises `KeyError: space` — the run fails; no blank glyph is synthesized
or registered. -/
theorem C4_counterexample :
    blankSubstitutePass demoGlyfNoSpace ["A"] []
      = Except.error "KeyError: space" := rfl

/-- C4 (amended): the post-pass replaces the outline of every glyph never
marked modified with the `"space"` glyph's outline when that glyph
exists; when the font has no `"space"` glyph and at least one glyph is
unmodified, it raises `KeyError: space` and the whole run fails — the
code never synthesizes or registers a substitute blank glyph. -/
theorem C4_no_space_fails_no_synthesis {G : Type} (glyf : String → Option G)
    (order modified : List String) :
    (∀ sp, glyf "space" = some sp →
      ∃ g', blankSubstitutePass glyf order modified = Except.ok g'
        ∧ ∀ name ∈ order, name ∉ modified → g' name = some sp)
    ∧ (glyf "space" = none →
      ∀ name ∈ order, name ∉ modified →
        blankSubstitutePass glyf order modified
          = Except.error "KeyError: space") := by
  constructor
  · intro sp hsp
    obtain ⟨g', h1, h3⟩ := blankPass_ok sp modified order glyf hsp
    exact ⟨g', h1, fun name hmem hnm => h3 name (Or.inl ⟨hmem, hnm⟩)⟩
  · intro hno name hmem hnm
    exact blankPass_error modified order glyf hno name hmem hnm

/-- Witness for `C4_no_space_fails_no_synthesis` on a toy table holding a
`"space"` glyph. -/
theorem C4_no_space_fails_no_synthesis_witness :
    ∃ g', blankSubstitutePass demoGlyf ["A", "space"] [] = Except.ok g'
      ∧ ∀ name ∈ (["A", "space"] : List String), name ∉ ([] : List String) →
          g' name = some 7 :=
  (C4_no_space_fails_no_synthesis demoGlyf ["A", "space"] []).1 7 rfl

/-- Truncating a product `u * w` for a unit-interval `u` and a positive
canvas extent `w` lands in `[0, w)` (truncation equals floor here since
the product is nonnegative). -/
theorem pyInt_unit_scale_bounds (u : ℚ) (w : ℕ) (h0 : 0 ≤ u) (h1 : u < 1)
    (hw : 0 < w) : 0 ≤ pyInt (u * w) ∧ pyInt (u * w) < w := by
  have hw' : (0 : ℚ) < (w : ℚ) := by exact_mod_cast hw
  have hnn : 0 ≤ u * (w : ℚ) := mul_nonneg h0 (le_of_lt hw')
  rw [pyInt_eq_floor _ hnn]
  refine ⟨Int.floor_nonneg.mpr hnn, ?_⟩
  rw [Int.floor_lt]
  calc u * (w : ℚ) < 1 * (w : ℚ) := mul_lt_mul_of_pos_right h1 hw'
    _ = (w : ℚ) := one_mul _
    _ = (((w : ℕ) : ℤ) : ℚ) := by push_cast; rfl

/-- C6: for positive canvas extents and `count ≥ 1`, the generator
returns exactly `2 ^ floor(log2 count)` integer points, each with
`x ∈ [0, width)` and `y ∈ [0, height)`.  The scrambled Sobol sampler is
modelled by `sample`, with scipy's documented guarantees (`random_base2 m`
yields `2 ^ m` points of the half-open unit square) as hypotheses. -/
theorem C6_sobol_count_and_bounds (width height count : ℕ)
    (sample : ℕ → List (ℚ × ℚ))
    (hw : 0 < width) (hh : 0 < height) (hc : 1 ≤ count)
    (hlen : ∀ m, (sample m).length = 2 ^ m)
    (hunit : ∀ m, ∀ p ∈ sample m,
      0 ≤ p.1 ∧ p.1 < 1 ∧ 0 ≤ p.2 ∧ p.2 < 1) :
    ∃ pts, generate_sobol_sequence width height (count : ℤ) sample
        = Except.ok pts
      ∧ pts.length = 2 ^ Nat.log2 count
      ∧ ∀ q ∈ pts, 0 ≤ q.1 ∧ q.1 < width ∧ 0 ≤ q.2 ∧ q.2 < height := by
  have hne : ((count : ℤ) = 0) = False := by
    simp only [eq_iff_iff, iff_false]
    exact_mod_cast Nat.pos_iff_ne_zero.mp hc
  have hneg : ¬ ((count : ℤ) < 0) := by omega
  rw [generate_sobol_sequence, if_neg (by rw [hne]; exact id), if_neg hneg]
  refine ⟨_, rfl, ?_, ?_⟩
  · rw [List.length_map, hlen, Int.toNat_natCast]
  · intro q hq
    rw [List.mem_map] at hq
    obtain ⟨p, hp, rfl⟩ := hq
    obtain ⟨h1, h2, h3, h4⟩ := hunit _ p hp
    obtain ⟨hx1, hx2⟩ := pyInt_unit_scale_bounds p.1 width h1 h2 hw
    obtain ⟨hy1, hy2⟩ := pyInt_unit_scale_bounds p.2 height h3 h4 hh
    exact ⟨hx1, hx2, hy1, hy2⟩

/-- Witness for `C6_sobol_count_and_bounds` with a sampler returning
`2 ^ m` copies of the center of the unit square. -/
theorem C6_sobol_count_and_bounds_witness :
    ∃ pts, generate_sobol_sequence 3 2 ((5 : ℕ) : ℤ)
        (fun m => List.replicate (2 ^ m) (1 / 2, 1 / 2)) = Except.ok pts
      ∧ pts.length = 2 ^ Nat.log2 5
      ∧ ∀ q ∈ pts, 0 ≤ q.1 ∧ q.1 < 3 ∧ 0 ≤ q.2 ∧ q.2 < 2 :=
  C6_sobol_count_and_bounds 3 2 5 _ (by norm_num) (by norm_num) (by norm_num)
    (fun m => List.length_replicate _ _)
    (fun m p hp => by
      rw [List.eq_of_mem_replicate hp]
      norm_num)

/-- The level table always contains the intensity 0 (its first entry). -/
theorem zero_mem_simplifyLevels (n : ℕ) (h2 : 2 ≤ n) (h256 : n ≤ 256) :
    0 ∈ simplifyLevels n := by
  have hn1 : 0 < n - 1 := by omega
  have hstep : 1 ≤ simplifyStep n := by
    rw [simplifyStep, Nat.one_le_div_iff hn1]
    omega
  have hstep0 : 0 < simplifyStep n := hstep
  have hc : 1 ≤ (256 + simplifyStep n - 1) / simplifyStep n := by
    rw [Nat.one_le_div_iff hstep0]
    omega
  obtain ⟨c', hc'⟩ : ∃ c', (256 + simplifyStep n - 1) / simplifyStep n = c' + 1 :=
    ⟨_, (Nat.succ_pred_eq_of_pos hc).symm⟩
  obtain ⟨t, ht⟩ : ∃ t, simplifyBase n = 0 :: t := by
    refine ⟨List.map (fun x => x * simplifyStep n) (List.map Nat.succ (List.range c')), ?_⟩
    rw [simplifyBase, hc', List.range_succ_eq_map, List.map_cons]
    simp
  obtain ⟨m, rfl⟩ : ∃ m, n = m + 1 := ⟨n - 1, by omega⟩
  rw [simplifyLevels, ht]
  split
  · rw [List.take_succ_cons]
    exact List.mem_cons_self _ _
  · exact List.mem_cons_self _ _

theorem simplifyLevels_length_le (n : ℕ) : (simplifyLevels n).length ≤ n := by
  rw [simplifyLevels]
  split
  · rw [List.length_take]
    exact Nat.min_le_left _ _
  · next h => exact Nat.le_of_not_lt h

/-- Indexing with default 0 stays inside a list that contains 0. -/
theorem getD_mem_of_zero_mem {l : List ℕ} (h : (0 : ℕ) ∈ l) (i : ℕ) :
    l.getD i 0 ∈ l := by
  by_cases hi : i < l.length
  · rw [List.getD_eq_getElem _ _ hi]
    exact List.getElem_mem _
  · rw [List.getD_eq_default _ _ (Nat.le_of_not_lt hi)]
    exact h

/-- C8: for `2 ≤ n ≤ 256` the simplified image holds at most `n` distinct
intensity values (every output pixel is drawn from the level table, whose
size is at most `n`); an `n` outside `[2, 256]` is rejected with a
ValueError before any pixel is mapped. -/
theorem C8_simplify_levels_bound (pixels : List ℕ) (n : ℕ) :
    (2 ≤ n → n ≤ 256 →
      ∃ out, simplify_image pixels n = Except.ok out
        ∧ out.toFinset.card ≤ n)
    ∧ ((n < 2 ∨ 256 < n) →
      simplify_image pixels n
        = Except.error "num_levels must be between 2 and 256") := by
  constructor
  · intro h2 h256
    rw [simplify_image, if_pos ⟨h2, h256⟩]
    refine ⟨_, rfl, ?_⟩
    have hsub : (pixels.map (fun p =>
        ((simplifyLevels n).getD (pyDigitize p (simplifyLevels n) - 1) 0) % 256)).toFinset
        ⊆ ((simplifyLevels n).map (· % 256)).toFinset := by
      intro v hv
      rw [List.mem_toFinset, List.mem_map] at hv
      obtain ⟨p, _, rfl⟩ := hv
      rw [List.mem_toFinset, List.mem_map]
      exact ⟨(simplifyLevels n).getD (pyDigitize p (simplifyLevels n) - 1) 0,
        getD_mem_of_zero_mem (zero_mem_simplifyLevels n h2 h256) _, rfl⟩
    calc (pixels.map _).toFinset.card
        ≤ ((simplifyLevels n).map (· % 256)).toFinset.card :=
          Finset.card_le_card hsub
      _ ≤ ((simplifyLevels n).map (· % 256)).length :=
          List.toFinset_card_le _
      _ = (simplifyLevels n).length := List.length_map _ _
      _ ≤ n := simplifyLevels_length_le n
  · intro hbad
    rw [simplify_image, if_neg (by rintro ⟨ha, hb⟩; omega)]

/-- Witness for `C8_simplify_levels_bound`: a four-level quantization of a
small pixel list, and the rejection of `n = 1`. -/
theorem C8_simplify_levels_bound_witness :
    (∃ out, simplify_image [0, 100, 200, 255] 4 = Except.ok out
      ∧ out.toFinset.card ≤ 4)
    ∧ simplify_image [0] 1
        = Except.error "num_levels must be between 2 and 256" :=
  ⟨(C8_simplify_levels_bound [0, 100, 200, 255] 4).1 (by norm_num) (by norm_num),
   (C8_simplify_levels_bound [0] 1).2 (Or.inl (by norm_num))⟩

/-- C9 (counterexample): a bitmap with a foreground pixel does not always
make `apply_shape_dithering` raise under the `"biggest"` size policy: on a
1×1 all-ink canvas with the default `reduction_percentage = 20` the shape
budget is `int(1 · 0.2) = 0`, no placement is ever attempted, and the call
returns normally with no shape placed. -/
theorem C9_counterexample :
    (apply_shape_dithering demoBlack ShapeType.circle 1 ShapeSizeSpec.biggest
        20 (blackPixels demoBlack)).2 = Except.ok (demoBlack, [])
    ∧ demoBlack.pix 0 0 = 0 := by
  constructor
  · have hb : blackPixels demoBlack = [((0 : ℤ), (0 : ℤ))] := by decide
    have hn : numShapes demoBlack 20 = 0 := by
      rw [numShapes, hb]
      rw [show ((([((0 : ℤ), (0 : ℤ))] : List (ℤ × ℤ)).length : ℚ))
            * ((20 : ℚ) / 100) = 1 / 5 by norm_num]
      rw [pyInt_of_num_den _ 1 5 (by norm_num) (by norm_num)]
      decide
    simp only [apply_shape_dithering, hn, List.take_zero]
    rfl
  · rfl

/-- C9 (amended): the `"random"` and `"biggest"` size policies raise
`Warning("This function is under development")` at the first *attempted*
placement — which happens exactly when the shape budget
`int(count · pct / 100)` is at least 1 and a foreground candidate is
iterated; with a black first candidate the helper raises before any shape
is painted, so these policies never place a shape. -/
theorem C9_dev_sizes_always_raise (img : Image) (st : ShapeType)
    (margin : ℤ) (ss : ShapeSizeSpec) (pct : ℚ)
    (shuffled : List (ℤ × ℤ)) (x y : ℤ)
    (hss : ss = ShapeSizeSpec.random ∨ ss = ShapeSizeSpec.biggest)
    (hhead : shuffled.head? = some (x, y))
    (hink : img.pix x y ≠ 255)
    (hnum : 1 ≤ numShapes img pct) :
    (apply_shape_dithering img st margin ss pct shuffled).2
      = Except.error devWarning := by
  obtain ⟨tail, rfl⟩ : ∃ t, shuffled = (x, y) :: t := by
    cases shuffled with
    | nil => cases hhead
    | cons a t =>
      rw [List.head?_cons] at hhead
      exact ⟨t, by rw [Option.some.injEq] at hhead; rw [hhead]⟩
  obtain ⟨k, hk⟩ : ∃ k, numShapes img pct = k + 1 :=
    ⟨numShapes img pct - 1, by omega⟩
  have hstep : shapeStep st margin img.width img.height ⟨img, [], ss⟩ (x, y)
      = Except.error devWarning := by
    rw [shapeStep]
    simp only []
    rw [if_neg hink]
    rcases hss with rfl | rfl <;> rfl
  simp only [apply_shape_dithering, hk, List.take_succ_cons, shapeLoop, hstep]
  rfl

/-- Witness for `C9_dev_sizes_always_raise`: a 2×2 all-ink canvas with
`reduction_percentage = 50` gives a budget of two shapes, and the first
candidate immediately triggers the raise. -/
theorem C9_dev_sizes_always_raise_witness :
    (apply_shape_dithering demoBlack4 ShapeType.circle 1
        ShapeSizeSpec.biggest 50 (blackPixels demoBlack4)).2
      = Except.error devWarning := by
  have hb : blackPixels demoBlack4
      = [((0 : ℤ), (0 : ℤ)), (1, 0), (0, 1), (1, 1)] := by decide
  apply C9_dev_sizes_always_raise demoBlack4 ShapeType.circle 1
    ShapeSizeSpec.biggest 50 (blackPixels demoBlack4) 0 0
  · exact Or.inr rfl
  · rw [hb]; rfl
  · decide
  · rw [numShapes, hb]
    rw [show ((([((0 : ℤ), (0 : ℤ)), (1, 0), (0, 1), (1, 1)] :
          List (ℤ × ℤ)).length : ℚ)) * ((50 : ℚ) / 100) = 2 by norm_num]
    rw [pyInt_of_num_den _ 2 1 (by norm_num) (by norm_num)]
    decide

/-- If the overlap scan reports no overlap, every scanned shape passed
the distance check. -/
theorem overlapScan_false (margin halfSize x y : ℤ) :
    ∀ (l : List (ℤ × ℤ × ℤ)) (o : Option ℤ),
      overlapScan margin halfSize x y l = (false, o) →
      ∀ c ∈ l,
        distLt ((x - c.1) ^ 2 + (y - c.2.1) ^ 2)
          (margin + halfSize + c.2.2.fdiv 2) = false := by
  intro l
  induction l with
  | nil => intro o _ c hc; cases hc
  | cons a rest ih =>
    intro o hscan c hc
    obtain ⟨ax, ay, asz⟩ := a
    rw [overlapScan] at hscan
    by_cases hd : distLt ((x - ax) ^ 2 + (y - ay) ^ 2)
        (margin + halfSize + asz.fdiv 2) = true
    · rw [if_pos hd] at hscan
      exact absurd (congrArg Prod.fst hscan) (by simp)
    · rw [if_neg hd] at hscan
      have hd' : distLt ((x - ax) ^ 2 + (y - ay) ^ 2)
          (margin + halfSize + asz.fdiv 2) = false := by
        revert hd
        cases distLt ((x - ax) ^ 2 + (y - ay) ^ 2)
            (margin + halfSize + asz.fdiv 2) <;> simp
      rcases hrec : overlapScan margin halfSize x y rest with ⟨b, o'⟩
      rw [hrec] at hscan
      have hb : b = false := by
        cases o' with
        | none => exact congrArg Prod.fst hscan
        | some q => exact congrArg Prod.fst hscan
      subst hb
      rcases List.mem_cons.mp hc with rfl | hcrest
      · exact hd'
      · exact ih o' hrec c hcrest

/-- The last value bound to the shadowed `shape_size` variable is the
size of one of the scanned shapes. -/
theorem overlapScan_snd_mem (margin halfSize x y : ℤ) :
    ∀ (l : List (ℤ × ℤ × ℤ)) (b : Bool) (q : ℤ),
      overlapScan margin halfSize x y l = (b, some q) →
      ∃ c ∈ l, c.2.2 = q := by
  intro l
  induction l with
  | nil =>
    intro b q h
    rw [overlapScan] at h
    simp at h
  | cons a rest ih =>
    intro b q hscan
    obtain ⟨ax, ay, asz⟩ := a
    rw [overlapScan] at hscan
    by_cases hd : distLt ((x - ax) ^ 2 + (y - ay) ^ 2)
        (margin + halfSize + asz.fdiv 2) = true
    · rw [if_pos hd] at hscan
      have h2 := congrArg Prod.snd hscan
      simp only [Option.some.injEq] at h2
      exact ⟨(ax, ay, asz), List.mem_cons_self _ _, h2⟩
    · rw [if_neg hd] at hscan
      rcases hrec : overlapScan margin halfSize x y rest with ⟨b', o'⟩
      rw [hrec] at hscan
      cases o' with
      | none =>
        have h2 := congrArg Prod.snd hscan
        simp only [Option.some.injEq] at h2
        exact ⟨(ax, ay, asz), List.mem_cons_self _ _, h2⟩
      | some q' =>
        have h2 := congrArg Prod.snd hscan
        simp only [Option.some.injEq] at h2
        obtain ⟨c, hcmem, hcq⟩ := ih b' q' hrec
        exact ⟨c, List.mem_cons_of_mem _ hcmem, by rw [hcq, h2]⟩

/-- A failed `distance < min_distance` check yields the separation bound
(squared form) whenever the threshold is nonnegative. -/
theorem distLt_false_sep {dsq minDist : ℤ} (h : distLt dsq minDist = false)
    (hmd : 0 ≤ minDist) (hdsq : 0 ≤ dsq) : minDist ^ 2 ≤ dsq := by
  rw [distLt] at h
  split at h
  · next hle =>
    have h0 : minDist = 0 := le_antisymm hle hmd
    rw [h0]
    simpa using hdsq
  · next hgt =>
    have := of_decide_eq_false h
    omega

/-- The rebound `shape_size` value after the scan is still the fixed
size `n` when every scanned shape has size `n`. -/
theorem scanCurSize_eq (margin halfSize x y n : ℤ) (l : List (ℤ × ℤ × ℤ))
    (hall : ∀ p ∈ l, p.2.2 = n) (b : Bool) (o : Option ℤ)
    (hscan : overlapScan margin halfSize x y l = (b, o)) :
    scanSizeUpdate (ShapeSizeSpec.fixed n) o = ShapeSizeSpec.fixed n := by
  cases o with
  | none => rfl
  | some q =>
    show ShapeSizeSpec.fixed q = ShapeSizeSpec.fixed n
    obtain ⟨cc, hccmem, hccq⟩ := overlapScan_snd_mem margin halfSize x y l b q hscan
    rw [← hccq, hall cc hccmem]

/-- One loop iteration preserves the separation invariant. -/
theorem shapeStep_preserves_inv (stype : ShapeType) (margin n : ℤ)
    (w h : ℕ) (hm : 0 ≤ margin) (hn : 0 ≤ n)
    (s s' : ShapeState) (c : ℤ × ℤ)
    (hinv : SepInv margin n s)
    (hstep : shapeStep stype margin w h s c = Except.ok s') :
    SepInv margin n s' := by
  obtain ⟨sres, splaced, scur⟩ := s
  obtain ⟨hsz, hall, hpair⟩ := hinv
  dsimp only at hsz hall hpair
  subst hsz
  have hhalf : 0 ≤ n.fdiv 2 := Int.fdiv_nonneg hn (by norm_num)
  simp only [shapeStep] at hstep
  split at hstep
  · cases hstep
    exact ⟨rfl, hall, hpair⟩
  · split at hstep
    · cases hstep
      exact ⟨rfl, hall, hpair⟩
    · rcases hscan : overlapScan margin (n.fdiv 2) c.1 c.2 splaced with ⟨b, o⟩
      rw [hscan] at hstep
      dsimp only at hstep
      have hcur := scanCurSize_eq margin (n.fdiv 2) c.1 c.2 n splaced hall b o hscan
      split at hstep

      · cases hstep
        exact ⟨hcur, hall, hpair⟩
      · split at hstep
        · cases hstep
          exact ⟨hcur, hall, hpair⟩
        · next hbfalse _ =>
          cases hstep
          have hb : b = false := by
            revert hbfalse
            cases b <;> simp
          subst hb
          refine ⟨hcur, ?_, ?_⟩
          · intro p hp
            rcases List.mem_append.mp hp with hp1 | hp2
            · exact hall p hp1
            · rcases List.mem_singleton.mp hp2 with rfl
              rfl
          · rw [List.pairwise_append]
            refine ⟨hpair, List.pairwise_singleton _ _, ?_⟩
            intro a ha b' hb'
            rcases List.mem_singleton.mp hb' with rfl
            have hfail := overlapScan_false margin (n.fdiv 2) c.1 c.2
              splaced o hscan a ha
            have hmd : 0 ≤ margin + n.fdiv 2 + a.2.2.fdiv 2 := by
              have := hall a ha
              rw [this]
              omega
            have hdsq : 0 ≤ (c.1 - a.1) ^ 2 + (c.2 - a.2.1) ^ 2 :=
              add_nonneg (sq_nonneg _) (sq_nonneg _)
            have hsep := distLt_false_sep hfail hmd hdsq
            rw [shapeSep]
            have e1 : (a.1 - c.1) ^ 2 = (c.1 - a.1) ^ 2 := by ring
            have e2 : (a.2.1 - c.2) ^ 2 = (c.2 - a.2.1) ^ 2 := by ring
            have e3 : margin + a.2.2.fdiv 2 + n.fdiv 2
                = margin + n.fdiv 2 + a.2.2.fdiv 2 := by ring
            rw [e1, e2, e3]
            exact hsep

/-- The loop preserves the separation invariant. -/
theorem shapeLoop_inv (stype : ShapeType) (margin n : ℤ) (w h : ℕ)
    (hm : 0 ≤ margin) (hn : 0 ≤ n) :
    ∀ (cands : List (ℤ × ℤ)) (s s' : ShapeState),
      SepInv margin n s →
      shapeLoop stype margin w h cands s = Except.ok s' →
      SepInv margin n s' := by
  intro cands
  induction cands with
  | nil =>
    intro s s' hinv hrun
    rw [shapeLoop] at hrun
    cases hrun
    exact hinv
  | cons c rest ih =>
    intro s s' hinv hrun
    rw [shapeLoop] at hrun
    cases hstep : shapeStep stype margin w h s c with
    | ok s1 =>
      rw [hstep] at hrun
      exact ih s1 s'
        (shapeStep_preserves_inv stype margin n w h hm hn s s1 c hinv hstep)
        hrun
    | error e =>
      rw [hstep] at hrun
      simp at hrun

/-- C7: under a fixed integer `shape_size = n` (the only size policy that
does not raise), any two shapes placed during one successful call to
`apply_shape_dithering` satisfy the minimum-separation invariant: the
squared distance between their centers is at least
`(margin + size₁ // 2 + size₂ // 2) ^ 2` — equivalently, the Euclidean
distance is at least `margin` plus the sum of the two half-sizes.  A
candidate that would violate the invariant is skipped before any pixel of
its shape is painted. -/
theorem C7_min_separation (img : Image) (stype : ShapeType) (margin n : ℤ)
    (pct : ℚ) (shuffled : List (ℤ × ℤ))
    (hm : 0 ≤ margin) (hn : 0 ≤ n)
    (res : Image) (placed : List (ℤ × ℤ × ℤ))
    (hrun : (apply_shape_dithering img stype margin (ShapeSizeSpec.fixed n)
        pct shuffled).2 = Except.ok (res, placed)) :
    List.Pairwise (shapeSep margin) placed := by
  simp only [apply_shape_dithering] at hrun
  cases hloop : shapeLoop stype margin img.width img.height
      (shuffled.take (numShapes img pct)) ⟨img, [], ShapeSizeSpec.fixed n⟩ with
  | error e =>
    rw [hloop] at hrun
    simp [Except.map] at hrun
  | ok sfin =>
    rw [hloop] at hrun
    simp only [Except.map, Except.ok.injEq, Prod.mk.injEq] at hrun
    obtain ⟨-, hplaced⟩ := hrun
    have hinit : SepInv margin n ⟨img, [], ShapeSizeSpec.fixed n⟩ :=
      ⟨rfl, fun p hp => absurd hp (List.not_mem_nil p), List.Pairwise.nil⟩
    have hfin := shapeLoop_inv stype margin n img.width img.height hm hn
      (shuffled.take (numShapes img pct)) ⟨img, [], ShapeSizeSpec.fixed n⟩
      sfin hinit hloop
    rw [← hplaced]
    exact hfin.2.2

/-- Witness for `C7_min_separation`: on a 5×5 all-ink canvas with
`margin = 1`, `shape_size = 1` and candidate centers `(1,1)` and `(3,3)`,
both shapes are placed and they satisfy the separation invariant. -/
theorem C7_min_separation_witness :
    List.Pairwise (shapeSep 1)
      [((1 : ℤ), (1 : ℤ), (1 : ℤ)), ((3 : ℤ), (3 : ℤ), (1 : ℤ))] := by
  refine C7_min_separation demoBlack25 ShapeType.circle 1 1 20 [(1, 1), (3, 3)]
    (by norm_num) (by norm_num)
    ((demoBlack25.setPix 1 1 255).setPix 3 3 255)
    [(1, 1, 1), (3, 3, 1)] ?_
  have hb : (blackPixels demoBlack25).length = 25 := by decide
  have hn : numShapes demoBlack25 20 = 5 := by
    rw [numShapes, hb]
    rw [show ((25 : ℕ) : ℚ) * ((20 : ℚ) / 100) = 5 by norm_num]
    rw [pyInt_of_num_den _ 5 1 (by norm_num) (by norm_num)]
    decide
  simp only [apply_shape_dithering, hn]
  rfl

end FontEco
